import Mathlib

/-
Verification of the git-backed record store of burp_git_bridge.py.

The development shallowly embeds the persistence core of the plugin:

* `Value` / `Record` model a `LogEntry`: its `__dict__` is an association
  list of field name to value, in dict iteration order.  CPython 2 dict
  iteration order is a property of the hash table, not of any sorting; the
  model takes the order as given by the list.
* `md5Hex` implements MD5 (RFC 1321) so that `LogEntry.__init__`'s
  fingerprint is computed exactly; it is validated against the RFC test
  vectors below.
* `FsNode` models the working copy as a tree; directory listings
  (`os.listdir`) are modelled as returning names in lexicographic byte
  order, which `dirInsert` maintains on every write.
* Fallible Python code becomes `Except PyErr`; the constructors name the
  exception class the interpreter would raise.
-/

/-- Bytes of an ASCII string, the model of a Python 2 `str`. -/
def bytes (s : String) : List Nat := s.toList.map Char.toNat

/-- Combine two machine words bit by bit with a boolean function, over `w` bits. -/
def bitZip (f : Bool → Bool → Bool) : Nat → Nat → Nat → Nat
  | 0, _, _ => 0
  | w + 1, x, y =>
    (if f (decide (x % 2 = 1)) (decide (y % 2 = 1)) then 1 else 0) + 2 * bitZip f w (x / 2) (y / 2)

/-- Bitwise AND on 32-bit words. -/
def andw (x y : Nat) : Nat := bitZip (fun a b => a && b) 32 x y

/-- Bitwise OR on 32-bit words. -/
def orw (x y : Nat) : Nat := bitZip (fun a b => a || b) 32 x y

/-- Bitwise XOR on 32-bit words. -/
def xorw (x y : Nat) : Nat := bitZip (fun a b => a != b) 32 x y

/-- Bitwise complement of a 32-bit word. -/
def notw (x : Nat) : Nat := 4294967295 - x % 4294967296

/-- Addition modulo 2^32. -/
def addw (x y : Nat) : Nat := (x + y) % 4294967296

/-- Left-rotation of a 32-bit word by `s` bits. -/
def rotlw (s x : Nat) : Nat := (x * 2 ^ s) % 4294967296 + x % 4294967296 / 2 ^ (32 - s)

/-- The 64 MD5 sine-derived round constants (RFC 1321). -/
def md5K : List Nat :=
  [0xd76aa478, 0xe8c7b756, 0x242070db, 0xc1bdceee,
   0xf57c0faf, 0x4787c62a, 0xa8304613, 0xfd469501,
   0x698098d8, 0x8b44f7af, 0xffff5bb1, 0x895cd7be,
   0x6b901122, 0xfd987193, 0xa679438e, 0x49b40821,
   0xf61e2562, 0xc040b340, 0x265e5a51, 0xe9b6c7aa,
   0xd62f105d, 0x02441453, 0xd8a1e681, 0xe7d3fbc8,
   0x21e1cde6, 0xc33707d6, 0xf4d50d87, 0x455a14ed,
   0xa9e3e905, 0xfcefa3f8, 0x676f02d9, 0x8d2a4c8a,
   0xfffa3942, 0x8771f681, 0x6d9d6122, 0xfde5380c,
   0xa4beea44, 0x4bdecfa9, 0xf6bb4b60, 0xbebfbc70,
   0x289b7ec6, 0xeaa127fa, 0xd4ef3085, 0x04881d05,
   0xd9d4d039, 0xe6db99e5, 0x1fa27cf8, 0xc4ac5665,
   0xf4292244, 0x432aff97, 0xab9423a7, 0xfc93a039,
   0x655b59c3, 0x8f0ccc92, 0xffeff47d, 0x85845dd1,
   0x6fa87e4f, 0xfe2ce6e0, 0xa3014314, 0x4e0811a1,
   0xf7537e82, 0xbd3af235, 0x2ad7d2bb, 0xeb86d391]

/-- The 64 MD5 per-round left-rotation amounts. -/
def md5S : List Nat :=
  [7, 12, 17, 22, 7, 12, 17, 22, 7, 12, 17, 22, 7, 12, 17, 22,
   5, 9, 14, 20, 5, 9, 14, 20, 5, 9, 14, 20, 5, 9, 14, 20,
   4, 11, 16, 23, 4, 11, 16, 23, 4, 11, 16, 23, 4, 11, 16, 23,
   6, 10, 15, 21, 6, 10, 15, 21, 6, 10, 15, 21, 6, 10, 15, 21]

/-- Little-endian 32-bit word at word index `g` of a 64-byte chunk. -/
def chunkWord (chunk : List Nat) (g : Nat) : Nat :=
  chunk.getD (4 * g) 0 + 256 * chunk.getD (4 * g + 1) 0 +
    65536 * chunk.getD (4 * g + 2) 0 + 16777216 * chunk.getD (4 * g + 3) 0

/-- One MD5 round on the state (A, B, C, D) for round index `i`. -/
def md5Round (chunk : List Nat) (st : Nat × Nat × Nat × Nat) (i : Nat) :
    Nat × Nat × Nat × Nat :=
  let (a, b, c, d) := st
  let f :=
    if i < 16 then orw (andw b c) (andw (notw b) d)
    else if i < 32 then orw (andw d b) (andw (notw d) c)
    else if i < 48 then xorw b (xorw c d)
    else xorw c (orw b (notw d))
  let g :=
    if i < 16 then i
    else if i < 32 then (5 * i + 1) % 16
    else if i < 48 then (3 * i + 5) % 16
    else (7 * i) % 16
  let f' := addw f (addw a (addw (md5K.getD i 0) (chunkWord chunk g)))
  (d, addw b (rotlw (md5S.getD i 0) f'), b, c)

/-- Process one 64-byte chunk, updating the running digest state. -/
def md5Chunk (st : Nat × Nat × Nat × Nat) (chunk : List Nat) : Nat × Nat × Nat × Nat :=
  let (a0, b0, c0, d0) := st
  let (a, b, c, d) := (List.range 64).foldl (md5Round chunk) (a0, b0, c0, d0)
  (addw a0 a, addw b0 b, addw c0 c, addw d0 d)

/-- Fold the 64-byte chunks of a padded message; `fuel` bounds the chunk count. -/
def md5Chunks : Nat → (Nat × Nat × Nat × Nat) → List Nat → Nat × Nat × Nat × Nat
  | 0, st, _ => st
  | _ + 1, st, [] => st
  | fuel + 1, st, msg => md5Chunks fuel (md5Chunk st (msg.take 64)) (msg.drop 64)

/-- Little-endian serialization of `n` into `k` bytes. -/
def leBytes : Nat → Nat → List Nat
  | 0, _ => []
  | k + 1, n => n % 256 :: leBytes k (n / 256)

/-- MD5 padding of a message to a multiple of 64 bytes. -/
def md5Pad (msg : List Nat) : List Nat :=
  msg ++ 128 :: List.replicate ((119 - msg.length % 64) % 64) 0 ++
    leBytes 8 (8 * msg.length % 2 ^ 64)

/-- The 16 digest bytes of the MD5 of a byte list. -/
def md5Bytes (msg : List Nat) : List Nat :=
  let padded := md5Pad msg
  let (a, b, c, d) :=
    md5Chunks padded.length (0x67452301, 0xefcdab89, 0x98badcfe, 0x10325476) padded
  leBytes 4 a ++ leBytes 4 b ++ leBytes 4 c ++ leBytes 4 d

/-- ASCII code of the lowercase hex digit for a nibble. -/
def hexDigit (n : Nat) : Nat := if n < 10 then 48 + n else 87 + n

/-- ASCII codes of the lowercase hex rendering of a byte list. -/
def hexBytes (l : List Nat) : List Nat :=
  l.flatMap (fun b => [hexDigit (b / 16), hexDigit (b % 16)])

/-- Hex digest of the MD5 of a byte list: `hashlib.md5(stream).hexdigest()`. -/
def md5Hex (msg : List Nat) : List Nat := hexBytes (md5Bytes msg)

/-- Render a byte list as a string, used where Python uses a `str` as a path name. -/
def asciiStr (l : List Nat) : String := String.mk (l.map Char.ofNat)

/-- A Python value stored in a `LogEntry.__dict__` slot: a byte string, an
integer (ports), `None` (absent responses), a nested `LogEntry` (its
`__dict__` as an association list), or a Python list of `LogEntry`s. -/
inductive Value where
  | str : List Nat → Value
  | int : Int → Value
  | none : Value
  | sub : List (String × Value) → Value
  | list : List (List (String × Value)) → Value

/-- A `LogEntry.__dict__`: field name to value, in dict iteration order. -/
abbrev Record := List (String × Value)

/-- Python truthiness of a `Value` (`if v:`). -/
def pyTruthy : Value → Bool
  | .str s => !s.isEmpty
  | .int n => n != 0
  | .none => false
  | .sub _ => true
  | .list l => !l.isEmpty

/-- Whether `getattr(v, "__getitem__", False)` is truthy: only strings and
lists support indexing among the value shapes stored in a `LogEntry`. -/
def hasGetitem : Value → Bool
  | .str _ => true
  | .list _ => true
  | _ => false

/-- ASCII decimal digits of a natural number; `fuel` bounds the digit count. -/
def natAscii : Nat → Nat → List Nat
  | 0, _ => []
  | fuel + 1, n => if n < 10 then [48 + n] else natAscii fuel (n / 10) ++ [48 + n % 10]

/-- Python `str(i)` for an integer. -/
def intAscii (n : Int) : List Nat :=
  if n < 0 then 45 :: natAscii n.natAbs n.natAbs else natAscii (n.natAbs + 1) n.natAbs

/-- Python `str(v)` for the value shapes that reach it.  The interpreter
renders an object repr with its memory address; the model collapses all
addresses to one placeholder (no claim depends on the address).  Lists never
reach `str(v)` in the embedded code paths (they pass the `__getitem__`
test), so that branch is left as an unused placeholder. -/
def pyStr : Value → List Nat
  | .str s => s
  | .int n => intAscii n
  | .none => bytes "None"
  | .sub _ => bytes "<__main__.LogEntry object at 0x7f2a40000000>"
  | .list _ => bytes "[]"

/-- Python errors raised by the embedded code paths.  `exn cmd` is the
`Exception("Error on call: ...")` raised by `GitLog._run_subprocess_command`:
its message is built from `cmd_list` alone, so the payload is the command. -/
inductive PyErr where
  | typeError : PyErr
  | osError : PyErr
  | ioError : PyErr
  | nameError : PyErr
  | attributeError : PyErr
  | recursionError : PyErr
  | exn : List String → PyErr
deriving DecidableEq, Repr

/-- The byte stream fed to the md5 in `LogEntry.__init__` (lines 96-102):
for each field, in dict iteration order, a truthy value under a key other
than "messages" contributes the key followed by the first 2048 bytes of the
value, string-coerced first when it lacks `__getitem__`.  A non-empty list
under any other key passes the `__getitem__` test, so `md5.update` receives
a list slice and raises TypeError. -/
def fpStream : Record → Except PyErr (List Nat)
  | [] => .ok []
  | (k, v) :: rest =>
    if pyTruthy v ∧ k ≠ "messages" then
      match v with
      | .list _ => .error .typeError
      | v' => (fpStream rest).map fun t => bytes k ++ (pyStr v').take 2048 ++ t
    else fpStream rest

/-- The hex fingerprint `LogEntry.__init__` assigns to `self.md5`. -/
def fingerprint (r : Record) : Except PyErr (List Nat) :=
  (fpStream r).map md5Hex

/-- java.lang.String.hashCode of an ASCII string — h = 31*h + c over the
characters — as an unsigned 32-bit bit pattern. -/
def javaStringHash (s : String) : Nat :=
  s.toList.foldl (fun h c => (31 * h + c.toNat) % 4294967296) 0

/-- The hash spreader of java.util.concurrent.ConcurrentHashMap:
h XOR (h >>> 16), masked to 31 bits. -/
def chmSpread (h : Nat) : Nat := xorw h (h / 65536) % 2147483648

/-- Bucket index of a string key in a ConcurrentHashMap table of `nb`
bins: the spread of the key's Java string hash, modulo the table length
(`nb` is a power of two, so the mask `nb - 1` is the same as `% nb`). -/
def dictBucket (nb : Nat) (k : String) : Nat := chmSpread (javaStringHash k) % nb

/-- Iteration order of a Jython dict holding the given insertion-ordered
entries.  The plugin imports java.* and burp classes, so its only runtime
is Jython, whose dicts are backed by a ConcurrentHashMap of the keys'
Java string hashes: the iterator walks the bucket table in ascending index
order, and each bucket's chain in insertion order (new nodes are appended
at the tail).  `nb` is the bucket-table length — 16, the default, for
dicts that stay below the 12-entry resize threshold, as the records used
in the claims below do. -/
def dictIter (nb : Nat) (r : Record) : Record :=
  (List.range nb).flatMap fun b => r.filter fun p => dictBucket nb p.1 == b

/-- LogEntry(**kwargs): the field dict is the kwargs, then the fingerprint
over those fields — in the order the kwargs dict iterates them, `dictIter`
of the keyword sequence — is appended as the `md5` attribute. -/
def mkLogEntry (kwargs : Record) : Except PyErr Record :=
  (fpStream (dictIter 16 kwargs)).map fun s => kwargs ++ [("md5", .str (md5Hex s))]

/-- Look up a name in an association list (first match). -/
def findKey {α : Type} : List (String × α) → String → Option α
  | [], _ => Option.none
  | (m, x) :: rest, n => if m = n then some x else findKey rest n

/-- Field access on a `LogEntry.__dict__`. -/
def findField (r : Record) (n : String) : Option Value := findKey r n

/-- Python dict assignment `d[n] = v`: overwrite in place, else append. -/
def setField : Record → String → Value → Record
  | [], n, v => [(n, v)]
  | (m, w) :: rest, n, v => if m = n then (m, v) :: rest else (m, w) :: setField rest n v

/-- Python `del d[n]`. -/
def delField (r : Record) (n : String) : Record := r.filter fun p => p.1 != n

/-- A node of the working copy: a file with byte content, or a directory.
Directory entries are kept in lexicographic name order, the order in which
the model's `os.listdir` reports them. -/
inductive FsNode where
  | file : List Nat → FsNode
  | dir : List (String × FsNode) → FsNode

/-- Whether a node is a directory (`os.path.isdir`). -/
def FsNode.isDir : FsNode → Bool
  | .dir _ => true
  | .file _ => false

/-- Lexicographic byte-order comparison of names. -/
def bytesLt : List Nat → List Nat → Bool
  | [], [] => false
  | [], _ :: _ => true
  | _ :: _, [] => false
  | a :: as, b :: bs => if a < b then true else if b < a then false else bytesLt as bs

/-- Name order used for directory listings. -/
def nameLt (a b : String) : Bool := bytesLt (bytes a) (bytes b)

/-- Create or overwrite the entry `n` of a directory, keeping the listing
in lexicographic name order. -/
def dirInsert : List (String × FsNode) → String → FsNode → List (String × FsNode)
  | [], n, x => [(n, x)]
  | (m, y) :: rest, n, x =>
    if n = m then (n, x) :: rest
    else if nameLt n m then (n, x) :: (m, y) :: rest
    else (m, y) :: dirInsert rest n x

/-- The byte content each field of a `LogEntry` is written with by
`GitLog.write_entry` (lines 574-582): falsy data is replaced by the empty
string, data without `__getitem__` is string-coerced, and `fp.write` on a
(non-empty, hence not replaced) list raises TypeError.  Each constructor
case below specializes that chain of tests to the value's shape. -/
def fileData : Value → Except PyErr (List Nat)
  | .str s => .ok s
  | .list [] => .ok []
  | .list (_ :: _) => .error .typeError
  | .none => .ok []
  | .int n => .ok (if n = 0 then [] else intAscii n)
  | .sub s => .ok (pyStr (.sub s))

/-- GitLog.write_entry: one file per field of the entry, named after the
field.  The interleaved `git add` calls do not affect the written tree and
are modelled by the subprocess claims separately; on an error the model
drops the partially written files, which no claim depends on. -/
def write_entry : Record → Except PyErr (List (String × List Nat))
  | [] => .ok []
  | (n, v) :: rest =>
    match fileData v with
    | .error e => .error e
    | .ok c =>
      match write_entry rest with
      | .error e => .error e
      | .ok fs => .ok ((n, c) :: fs)

/-- Place written files into a (fresh) directory listing. -/
def filesToDir (files : List (String × List Nat)) : List (String × FsNode) :=
  files.foldl (fun d p => dirInsert d p.1 (.file p.2)) []

/-- Python `str(i)` for a list index, used as an element directory name. -/
def natName (i : Nat) : String := asciiStr (natAscii (i + 1) i)

/-- The numbered-element loop of `GitLog.add_scanner_entry` (lines 555-561):
writes element `i` of the messages list into a subdirectory named `str(i)`,
accumulating into the messages directory listing. -/
def writeMessages : Nat → List Record → List (String × FsNode) →
    Except PyErr (List (String × FsNode))
  | _, [], d => .ok d
  | i, m :: ms, d =>
    match write_entry m with
    | .error e => .error e
    | .ok files => writeMessages (i + 1) ms (dirInsert d (natName i) (.dir (filesToDir files)))

/-- GitLog.add_scanner_entry: reads `entry.md5` (the directory name) and
`entry.messages`, deletes the messages field, writes the remaining fields as
files, then writes the messages into a subdirectory holding the `.burp-list`
sentinel plus one numbered subdirectory per element.  A missing attribute
raises; value shapes other than the ones the plugin constructs (str md5,
list messages) are collapsed to that same error.  Returns the directory
name and the directory listing written under it. -/
def add_scanner_entry (entry : Record) :
    Except PyErr (String × List (String × FsNode)) :=
  match findField entry "md5", findField entry "messages" with
  | some (.str md5v), some (.list msgs) =>
    match write_entry (delField entry "messages") with
    | .error e => .error e
    | .ok files =>
      match writeMessages 0 msgs [(".burp-list", .file [])] with
      | .error e => .error e
      | .ok msgsDir => .ok (asciiStr md5v, dirInsert (filesToDir files) "messages" (.dir msgsDir))
  | _, _ => .error .attributeError

/-- The `LogEntry()` a load starts from: an empty field dict immediately
fingerprinted, so its only field is the md5 of the empty stream. -/
def initEntry : Record := [("md5", .str (md5Hex []))]

/-- Python's recursion limit, the only depth bound the loader has. -/
def pyRecursionLimit : Nat := 1000

/-- GitLog.entries.load_entry and load_list (lines 592-624), fused: walks a
directory listing, turning each file into a string field, each subdirectory
holding the `.burp-list` sentinel into a list field (elements in listing
order, the sentinel skipped, each loaded as an entry — a non-directory
element makes `os.listdir` raise OSError), and each other subdirectory into
a nested entry field.  `fuel` models the interpreter's recursion limit. -/
def loadNode : Nat → FsNode → Except PyErr Record
  | 0, _ => .error .recursionError
  | _ + 1, .file _ => .error .osError
  | fuel + 1, .dir es =>
    es.foldlM
      (fun acc p =>
        match p.2 with
        | .file c => pure (setField acc p.1 (.str c))
        | .dir sub =>
          if (sub.map Prod.fst).contains ".burp-list" then
            ((sub.filter fun q => q.1 != ".burp-list").mapM fun q => loadNode fuel q.2).map
              fun elems => setField acc p.1 (.list elems)
          else (loadNode fuel (.dir sub)).map fun r => setField acc p.1 (.sub r))
      initEntry

/-- GitLog.entries (lines 627-637): walk the repository root in listing
order, skipping the `.git` entry and non-directories, and load every other
directory as an entry.  The body has no error handling: a load failure
propagates out of the generator and aborts the walk. -/
def gitlog_entries : List (String × FsNode) → Except PyErr (List Record)
  | [] => .ok []
  | (name, node) :: rest =>
    if name = ".git" then gitlog_entries rest
    else
      match node with
      | .file _ => gitlog_entries rest
      | .dir es =>
        match loadNode pyRecursionLimit (.dir es) with
        | .error e => .error e
        | .ok r =>
          match gitlog_entries rest with
          | .error e => .error e
          | .ok rs => .ok (r :: rs)

/-- The observable outcome of one subprocess invocation. -/
structure ProcResult where
  cmd : List String
  returncode : Int
  out : List Nat
  err : List Nat
deriving DecidableEq, Repr

/-- GitLog._run_subprocess_command (lines 478-492): returns the captured
stdout when the subprocess exits zero; otherwise raises
`Exception("Error on call: ...")`, whose message is formatted from
`cmd_list` alone — the captured stdout and stderr are only printed. -/
def run_subprocess_command (p : ProcResult) : Except PyErr (List Nat) :=
  if p.returncode ≠ 0 then .error (.exn p.cmd) else .ok p.out

/-- The commit command `GitLog.add_repeater_entry` runs (line 531). -/
def repeater_commit_cmd : List String := ["git", "commit", "-m", "Added Repeater entry"]

/-- Modelled from the spec: the external `git commit` invocation when
nothing is staged.  The spec's VCS session treats git as an opaque
subprocess; git exits non-zero with "nothing to commit" on a clean index
(the spec demands this case "must not fail", which presupposes the non-zero
exit). -/
def commit_nothing_staged : ProcResult :=
  ⟨repeater_commit_cmd, 1, bytes "nothing to commit, working tree clean", []⟩

/-- GitLog.add_repeater_entry (lines 517-532): writes the entry files, then
runs `git commit`; the commit subprocess outcome is supplied as a parameter
and its failure propagates as the raised exception. -/
def add_repeater_entry (entry : Record) (commitRes : ProcResult) :
    Except PyErr (List (String × FsNode)) :=
  match write_entry entry with
  | .error e => .error e
  | .ok files =>
    match run_subprocess_command commitRes with
    | .error e => .error e
    | .ok _ => .ok (filesToDir files)

/-- GitLog.set_description (lines 711-733): reads the entry's `who` file,
returns False (no write performed) when it differs from the current
`git config user.name` output, and otherwise writes the description file.
Python returns None on the success path; the model returns `Option.none`
for it and `some false` for the denial, both falsy.  The trailing
`git add`/`commit`/`push` calls do not change the working tree and are
modelled as succeeding. -/
def set_description (repo : List (String × FsNode)) (current_user : List Nat)
    (entry_hash : String) (description : List Nat) :
    Except PyErr (List (String × FsNode) × Option Bool) :=
  match findKey repo entry_hash with
  | some (.dir es) =>
    match findKey es "who" with
    | some (.file who) =>
      if who = current_user then
        .ok (dirInsert repo entry_hash (.dir (dirInsert es "description" (.file description))),
          Option.none)
      else .ok (repo, some false)
    | _ => .error .ioError
  | _ => .error .ioError

/-- Index of the first log entry with the given md5, scanning from `i`. -/
def firstMatchFrom : Nat → List (List Nat) → List Nat → Option Nat
  | _, [], _ => Option.none
  | i, m :: rest, t => if m = t then some i else firstMatchFrom (i + 1) rest t

/-- GuiLog.remove_entry (lines 319-331): scans the log for the first entry
whose md5 matches, removes it at its index and breaks; afterwards it always
calls fireTableRowsDeleted(i, i) with the loop variable — on a no-match
scan that is the last scanned index, and on an empty log the variable was
never bound, a Python NameError.  The log is modelled by its entries' md5
values; the result is the new log and the notified index. -/
def remove_entry (log : List (List Nat)) (target : List Nat) :
    Except PyErr (List (List Nat) × Nat) :=
  match log with
  | [] => .error .nameError
  | _ =>
    match firstMatchFrom 0 log target with
    | some i => .ok (log.eraseIdx i, i)
    | Option.none => .ok (log, log.length - 1)

/-- Content of a file node, defaulting to empty on a directory. -/
def FsNode.contentD : FsNode → List Nat
  | .file c => c
  | .dir _ => []

/-- A directory listing in strictly increasing name order, the invariant
`dirInsert` maintains. -/
def DirSorted (d : List (String × FsNode)) : Prop :=
  d.Pairwise fun a b => nameLt a.1 b.1

/-
Concrete records, listings, and process results used by the claim
theorems below.
-/

/-- Two-field record with the keywords in name-sorted order (host before
port). -/
def c1r1 : Record := [("host", .str (bytes "a")), ("port", .str (bytes "b"))]

/-- The same field set built in the opposite keyword order.  This list is
also the sequence in which the runtime dict iterates either construction:
port hashes to bucket 5 and host to bucket 8 of the 16-bin table. -/
def c1r2 : Record := [("port", .str (bytes "b")), ("host", .str (bytes "a"))]

/-- Record with a non-empty list under a name other than "messages". -/
def c2r1 : Record := [("findings", .list [[("a", .str (bytes "x"))]])]

/-- The same record with only that list-valued field mutated (emptied). -/
def c2r2 : Record := [("findings", .list [])]

/-- Nested record stored under the field `finding`. -/
def c3sub : Record := [("detail", .str (bytes "inner"))]

/-- Message element of the scanner entry. -/
def c3msg : Record := [("md5", .str (bytes "11aa")), ("request", .str (bytes "GET-REQ"))]

/-- Scanner entry with scalar, nested-record, and list-of-record fields. -/
def c3entry : Record :=
  [("tool", .str (bytes "scanner")), ("finding", .sub c3sub),
   ("messages", .list [c3msg]), ("md5", .str (bytes "abcd1234"))]

/-- The record read back from the directory written for `c3entry`. -/
def c3loaded : Option Record :=
  (add_scanner_entry c3entry).toOption.bind fun p => (loadNode pyRecursionLimit (.dir p.2)).toOption

/-- Record with byte-string fields only, for the round-trip witness. -/
def c3w : Record := [("kind", .str (bytes "capture")), ("host", .str (bytes "example.com"))]

/-- Flat message record with the given md5 and request bytes. -/
def c4msg (h r : List Nat) : Record := [("md5", .str h), ("request", .str r)]

/-- Scanner entry whose messages list holds three given elements in order. -/
def c4entry (h1 r1 h2 r2 h3 r3 : List Nat) : Record :=
  [("tool", .str (bytes "scanner")),
   ("messages", .list [c4msg h1 r1, c4msg h2 r2, c4msg h3 r3]),
   ("md5", .str (bytes "ffee00"))]

/-- Whether a value is a Python list. -/
def Value.isList : Value → Bool
  | .list _ => true
  | _ => false

/-- Repeater entry with byte-string fields only. -/
def c5entry : Record :=
  [("tool", .str (bytes "repeater")), ("host", .str (bytes "example.com")),
   ("md5", .str (bytes "00ff"))]

/-- Well-formed record listing (all fields are files). -/
def c6good1 : List (String × FsNode) :=
  [("md5", .file (bytes "a1")), ("tool", .file (bytes "repeater"))]

/-- Malformed record listing: the `messages` subdirectory is missing its
`.burp-list` sentinel, so it no longer denotes a list. -/
def c6bad : List (String × FsNode) :=
  [("md5", .file (bytes "b2")),
   ("messages", .dir [("0", .dir [("request", .file (bytes "REQ"))])])]

/-- A second well-formed record listing. -/
def c6good2 : List (String × FsNode) :=
  [("md5", .file (bytes "c3")), ("tool", .file (bytes "scanner"))]

/-- Repository with one malformed record directory between two well-formed
ones (plus the `.git` directory). -/
def c6repo : List (String × FsNode) :=
  [(".git", .dir []), ("a1", .dir c6good1), ("b2", .dir c6bad), ("c3", .dir c6good2)]

/-- One-entry repository for the C6 witness. -/
def c6wrepo : List (String × FsNode) :=
  [("a1", .dir [("md5", .file (bytes "a1"))])]

/-- Repository whose record directory name disagrees with the md5 file it
contains. -/
def c7repo : List (String × FsNode) :=
  [("deadbeef", .dir [("md5", .file (bytes "cafebabe")), ("tool", .file (bytes "repeater"))])]

/-- Failed push with one stderr. -/
def c8a : ProcResult := ⟨["git", "push", "origin", "master"], 1, bytes "outA",
  bytes "rejected: fetch first"⟩

/-- Failed push, same command, different stdout and stderr. -/
def c8b : ProcResult := ⟨["git", "push", "origin", "master"], 1, bytes "outB",
  bytes "ssh: connection refused"⟩

/-- Successful config query. -/
def c8ok : ProcResult := ⟨["git", "config", "user.name"], 0, bytes "alice\n", []⟩

/-- Repository with one entry recorded as authored by alice. -/
def c9repo : List (String × FsNode) :=
  [("e1", .dir [("who", .file (bytes "alice\n")), ("description", .file (bytes "old"))])]

/-
Validation of the MD5 embedding against the RFC 1321 test vectors.
-/

set_option maxRecDepth 200000 in
/-- RFC 1321 test vector: MD5 of the empty message. -/
theorem md5_vector_empty : md5Hex (bytes "") = bytes "d41d8cd98f00b204e9800998ecf8427e" := by
  decide

set_option maxRecDepth 200000 in
/-- RFC 1321 test vector: MD5 of "abc". -/
theorem md5_vector_abc : md5Hex (bytes "abc") = bytes "900150983cd24fb0d6963f7d28e17f72" := by
  decide

/-
Claim C1: fingerprint field iteration order.
-/

/-- Permutations of subsingleton lists are equalities. -/
theorem perm_eq_of_length_le_one {α : Type} {l1 l2 : List α} (h : l1.Perm l2)
    (hlen : l1.length ≤ 1) : l1 = l2 := by
  cases l1 with
  | nil => exact (List.Perm.eq_nil h.symm).symm
  | cons a t =>
    cases t with
    | nil => exact (List.perm_singleton.mp h.symm).symm
    | cons b t2 => simp at hlen

/-- A duplicate-free list whose elements are all equal has at most one. -/
theorem length_le_one_of_nodup_const {l : List Nat} {b : Nat} (hnd : l.Nodup)
    (hall : ∀ x ∈ l, x = b) : l.length ≤ 1 := by
  cases l with
  | nil => simp
  | cons x t =>
    cases t with
    | nil => simp
    | cons y t2 =>
      have hx : x = b := hall x (by simp)
      have hy : y = b := hall y (by simp)
      subst hx
      subst hy
      simp at hnd

set_option maxRecDepth 200000 in
/-- C1 counterexample: the runtime dict iterates the host/port field set as
port before host whichever keyword order built it (port sits in bucket 5,
host in bucket 8), so the digest `LogEntry.__init__` computes is the one
over the stream port-then-host — it is not computed by iterating the
fields in sorted order by field name, and it differs from the digest that
name-sorted iteration (host before port, the order of `c1r1`) would
produce. -/
theorem C1_counterexample :
    dictIter 16 c1r1 = c1r2 ∧ dictIter 16 c1r2 = c1r2 ∧
    (fingerprint (dictIter 16 c1r1)).toOption ≠ (fingerprint c1r1).toOption :=
  ⟨rfl, rfl, by decide⟩

set_option maxRecDepth 200000 in
/-- C1 (corrected): the fingerprint iterates the fields in the dict's
hash-bucket order, not in sorted order by field name.  Field sets whose
names hash to pairwise distinct buckets get the same digest under every
insertion order — the hash layout, not sorting, removes the dependence —
while the iterated sequence itself is not name-sorted: for host/port the
dict yields port first and the digest differs from sorted iteration's. -/
theorem C1_fingerprint_order :
    (∀ (nb : Nat) (r1 r2 : Record), r1.Perm r2 →
        ((r1.map fun p => dictBucket nb p.1).Nodup) →
        fingerprint (dictIter nb r1) = fingerprint (dictIter nb r2)) ∧
    (dictIter 16 c1r1 = c1r2 ∧
      (fingerprint (dictIter 16 c1r1)).toOption ≠ (fingerprint c1r1).toOption) := by
  constructor
  · intro nb r1 r2 hperm hnd
    have hb : ∀ b : Nat,
        r1.filter (fun p => dictBucket nb p.1 == b) =
        r2.filter (fun p => dictBucket nb p.1 == b) := by
      intro b
      refine perm_eq_of_length_le_one (hperm.filter _) ?_
      have hmsub := (@List.filter_sublist _ (fun p => dictBucket nb p.1 == b) r1).map
        fun p => dictBucket nb p.1
      have hmnd := List.Nodup.sublist hmsub hnd
      have hall : ∀ x ∈ (r1.filter fun p => dictBucket nb p.1 == b).map
          (fun p => dictBucket nb p.1), x = b := by
        intro x hx
        obtain ⟨p, hp, rfl⟩ := List.mem_map.mp hx
        exact eq_of_beq (List.mem_filter.mp hp).2
      have hlen := length_le_one_of_nodup_const hmnd hall
      rwa [List.length_map] at hlen
    have hfun : (fun b => r1.filter fun p => dictBucket nb p.1 == b) =
        (fun b => r2.filter fun p => dictBucket nb p.1 == b) := funext hb
    have hiter : dictIter nb r1 = dictIter nb r2 := by
      simp only [dictIter]
      rw [hfun]
    rw [hiter]
  · exact ⟨rfl, by decide⟩

/-- Witness for C1_fingerprint_order: both keyword orders of the host/port
record produce the same fingerprint, their buckets being distinct. -/
theorem C1_fingerprint_order_witness :
    fingerprint (dictIter 16 c1r1) = fingerprint (dictIter 16 c1r2) :=
  C1_fingerprint_order.1 16 c1r1 c1r2 (List.Perm.swap _ _ _) (by decide)

/-
Claim C2: which list-valued fields the fingerprint ignores.
-/

set_option maxRecDepth 200000 in
/-- C2 counterexample: mutating only the list-valued field `findings`
changes the fingerprint outcome: non-empty, the list reaches `md5.update`
and raises TypeError; emptied, it is skipped as falsy and a digest is
produced.  Only the field named "messages" is exempted by name. -/
theorem C2_counterexample :
    fingerprint c2r1 = .error .typeError ∧
    (fingerprint c2r1).toOption ≠ (fingerprint c2r2).toOption :=
  ⟨rfl, by decide⟩

/-- C2 (corrected): the fingerprint ignores the field named "messages" —
the one list-valued field the plugin creates — whatever list it holds;
list-valued fields under other names are not ignored (a non-empty one makes
the computation raise, as the counterexample shows). -/
theorem C2_messages_field_ignored :
    ∀ (pre post : Record) (l l' : List (List (String × Value))),
      fingerprint (pre ++ ("messages", Value.list l) :: post) =
      fingerprint (pre ++ ("messages", Value.list l') :: post) := by
  intro pre post l l'
  suffices h : fpStream (pre ++ ("messages", Value.list l) :: post) =
      fpStream (pre ++ ("messages", Value.list l') :: post) by
    simp [fingerprint, h]
  induction pre with
  | nil => simp [fpStream]
  | cons p rest ih =>
    obtain ⟨k, v⟩ := p
    simp only [List.cons_append, fpStream, List.append_eq]
    rw [ih]

/-
Order lemmas for directory listings.
-/

/-- Lexicographic byte order is irreflexive. -/
theorem bytesLt_irrefl (a : List Nat) : bytesLt a a = false := by
  induction a with
  | nil => rfl
  | cons x xs ih => simp [bytesLt, ih]

/-- Lexicographic byte order is transitive. -/
theorem bytesLt_trans {a b c : List Nat} (h1 : bytesLt a b = true) (h2 : bytesLt b c = true) :
    bytesLt a c = true := by
  induction a generalizing b c with
  | nil =>
    cases b with
    | nil => simp [bytesLt] at h1
    | cons y ys =>
      cases c with
      | nil => simp [bytesLt] at h2
      | cons z zs => rfl
  | cons x xs ih =>
    cases b with
    | nil => simp [bytesLt] at h1
    | cons y ys =>
      cases c with
      | nil => simp [bytesLt] at h2
      | cons z zs =>
        simp only [bytesLt] at h1 h2 ⊢
        rcases Nat.lt_trichotomy x y with hxy | hxy | hxy
        · rcases Nat.lt_trichotomy y z with hyz | hyz | hyz
          · simp [Nat.lt_trans hxy hyz]
          · subst hyz; simp [hxy]
          · simp [hyz, Nat.lt_asymm hyz] at h2
        · subst hxy
          rcases Nat.lt_trichotomy x z with hyz | hyz | hyz
          · simp [hyz]
          · subst hyz
            simp [Nat.lt_irrefl] at h1 h2 ⊢
            exact ih h1 h2
          · simp [hyz, Nat.lt_asymm hyz] at h2
        · simp [hxy, Nat.lt_asymm hxy] at h1

/-- Lexicographic byte order is total up to equality. -/
theorem bytesLt_or (a b : List Nat) : a = b ∨ bytesLt a b = true ∨ bytesLt b a = true := by
  induction a generalizing b with
  | nil =>
    cases b with
    | nil => exact Or.inl rfl
    | cons y ys => exact Or.inr (Or.inl rfl)
  | cons x xs ih =>
    cases b with
    | nil => exact Or.inr (Or.inr rfl)
    | cons y ys =>
      rcases Nat.lt_trichotomy x y with hxy | hxy | hxy
      · exact Or.inr (Or.inl (by simp [bytesLt, hxy]))
      · subst hxy
        rcases ih ys with h | h | h
        · exact Or.inl (by rw [h])
        · exact Or.inr (Or.inl (by simp [bytesLt, Nat.lt_irrefl, h]))
        · exact Or.inr (Or.inr (by simp [bytesLt, Nat.lt_irrefl, h]))
      · exact Or.inr (Or.inr (by simp [bytesLt, hxy]))

/-- The byte rendering of a string determines the string. -/
theorem bytes_inj {a b : String} (h : bytes a = bytes b) : a = b := by
  have hchar : Function.Injective Char.toNat := by
    intro c d hcd
    have := congrArg Char.ofNat hcd
    rwa [Char.ofNat_toNat, Char.ofNat_toNat] at this
  have hl : a.toList = b.toList := List.map_injective_iff.mpr hchar h
  have := congrArg List.asString hl
  rwa [String.asString_toList, String.asString_toList] at this

/-- Name order is irreflexive. -/
theorem nameLt_irrefl (n : String) : nameLt n n = false := by
  simp [nameLt, bytesLt_irrefl]

/-- Name order is transitive. -/
theorem nameLt_trans {a b c : String} (h1 : nameLt a b = true) (h2 : nameLt b c = true) :
    nameLt a c = true :=
  bytesLt_trans h1 h2

/-- Name order is total up to equality. -/
theorem nameLt_or (a b : String) : a = b ∨ nameLt a b = true ∨ nameLt b a = true := by
  rcases bytesLt_or (bytes a) (bytes b) with h | h | h
  · exact Or.inl (bytes_inj h)
  · exact Or.inr (Or.inl h)
  · exact Or.inr (Or.inr h)

/-
Association-list lemmas for listings and field dicts.
-/

/-- A name not among the keys is not found. -/
theorem findKey_eq_none {α : Type} {l : List (String × α)} {n : String}
    (h : n ∉ l.map Prod.fst) : findKey l n = Option.none := by
  induction l with
  | nil => rfl
  | cons p rest ih =>
    obtain ⟨m, x⟩ := p
    simp only [List.map_cons, List.mem_cons] at h
    push_neg at h
    simp [findKey, Ne.symm h.1, ih h.2]

/-- A found binding is a member. -/
theorem findKey_mem {α : Type} {l : List (String × α)} {n : String} {v : α}
    (h : findKey l n = some v) : (n, v) ∈ l := by
  induction l with
  | nil => simp [findKey] at h
  | cons p rest ih =>
    obtain ⟨m, x⟩ := p
    by_cases hm : m = n
    · subst hm
      have h2 : x = v := by simpa [findKey] using h
      subst h2
      exact List.mem_cons_self _ _
    · simp only [findKey, if_neg hm] at h
      exact List.mem_cons_of_mem _ (ih h)

/-- Lookup after a dict assignment. -/
theorem findKey_setField (r : Record) (n m : String) (v : Value) :
    findKey (setField r n v) m = if m = n then some v else findKey r m := by
  induction r with
  | nil =>
    by_cases h : m = n
    · simp [setField, findKey, h]
    · simp [setField, findKey, h, Ne.symm h]
  | cons p rest ih =>
    obtain ⟨k, w⟩ := p
    by_cases h1 : k = n
    · subst h1
      by_cases h2 : m = k
      · simp [setField, findKey, h2]
      · simp [setField, findKey, h2, Ne.symm h2]
    · by_cases h2 : k = m
      · subst h2
        simp [setField, findKey, h1, fun he : k = n => h1 he]
      · simp [setField, findKey, h1, h2, ih]

/-- Lookup after a directory insert. -/
theorem findKey_dirInsert (d : List (String × FsNode)) (n : String) (x : FsNode) (m : String) :
    findKey (dirInsert d n x) m = if m = n then some x else findKey d m := by
  induction d with
  | nil =>
    by_cases h : m = n
    · simp [dirInsert, findKey, h]
    · simp [dirInsert, findKey, h, Ne.symm h]
  | cons p rest ih =>
    obtain ⟨k, y⟩ := p
    by_cases h1 : n = k
    · subst h1
      by_cases h2 : m = n
      · simp [dirInsert, findKey, h2]
      · simp [dirInsert, findKey, h2, Ne.symm h2]
    · by_cases hlt : nameLt n k
      · by_cases h2 : m = n
        · simp [dirInsert, h1, hlt, findKey, h2]
        · simp [dirInsert, h1, hlt, findKey, h2, Ne.symm h2]
      · have h3 : k ≠ n := fun he => h1 he.symm
        by_cases h2 : k = m
        · subst h2
          simp [dirInsert, h1, hlt, findKey, h3]
        · simp [dirInsert, h1, hlt, findKey, h2, h3, ih]

/-- Membership after a directory insert. -/
theorem mem_dirInsert {d : List (String × FsNode)} {n : String} {x : FsNode}
    {p : String × FsNode} (h : p ∈ dirInsert d n x) : p = (n, x) ∨ p ∈ d := by
  induction d with
  | nil => simpa [dirInsert] using h
  | cons q rest ih =>
    obtain ⟨k, y⟩ := q
    by_cases h1 : n = k
    · rw [dirInsert, if_pos h1] at h
      rcases List.mem_cons.mp h with h2 | h2
      · exact Or.inl h2
      · exact Or.inr (List.mem_cons_of_mem _ h2)
    · by_cases hlt : nameLt n k
      · rw [dirInsert, if_neg h1, if_pos hlt] at h
        rcases List.mem_cons.mp h with h2 | h2
        · exact Or.inl h2
        · exact Or.inr h2
      · rw [dirInsert, if_neg h1, if_neg hlt] at h
        rcases List.mem_cons.mp h with h2 | h2
        · exact Or.inr (h2 ▸ List.mem_cons_self _ _)
        · rcases ih h2 with h3 | h3
          · exact Or.inl h3
          · exact Or.inr (List.mem_cons_of_mem _ h3)

/-- Directory inserts keep the listing strictly sorted. -/
theorem dirInsert_sorted {d : List (String × FsNode)} (h : DirSorted d)
    (n : String) (x : FsNode) : DirSorted (dirInsert d n x) := by
  induction d with
  | nil => simp [dirInsert, DirSorted]
  | cons q rest ih =>
    obtain ⟨k, y⟩ := q
    rw [DirSorted, List.pairwise_cons] at h
    obtain ⟨hk, hrest⟩ := h
    by_cases h1 : n = k
    · subst h1
      rw [dirInsert, if_pos rfl]
      exact List.Pairwise.cons hk hrest
    · by_cases hlt : nameLt n k
      · rw [dirInsert, if_neg h1, if_pos hlt]
        refine List.Pairwise.cons ?_ (List.Pairwise.cons hk hrest)
        intro b hb
        rcases List.mem_cons.mp hb with h2 | h2
        · subst h2; exact hlt
        · exact nameLt_trans hlt (hk b h2)
      · rw [dirInsert, if_neg h1, if_neg hlt]
        refine List.Pairwise.cons ?_ (ih hrest)
        intro b hb
        rcases mem_dirInsert hb with h2 | h2
        · subst h2
          rcases nameLt_or n k with h3 | h3 | h3
          · exact absurd h3 h1
          · exact absurd h3 hlt
          · exact h3
        · exact hk b h2

/-- A strictly sorted listing has no duplicate names. -/
theorem sorted_nodup {d : List (String × FsNode)} (h : DirSorted d) :
    (d.map Prod.fst).Nodup := by
  refine List.pairwise_map.mpr (h.imp ?_)
  intro a b hab heq
  rw [heq] at hab
  simp [nameLt_irrefl] at hab

/-- The listing built by `filesToDir` onto a sorted accumulator is sorted. -/
theorem filesToDir_go_sorted :
    ∀ (files : List (String × List Nat)) (acc : List (String × FsNode)), DirSorted acc →
      DirSorted (files.foldl (fun d p => dirInsert d p.1 (.file p.2)) acc) := by
  intro files
  induction files with
  | nil => intro acc hacc; exact hacc
  | cons p rest ih => intro acc hacc; exact ih _ (dirInsert_sorted hacc _ _)

/-- The listing built by `filesToDir` is sorted. -/
theorem filesToDir_sorted (files : List (String × List Nat)) : DirSorted (filesToDir files) :=
  filesToDir_go_sorted files [] (by simp [DirSorted])

/-- Every node placed by `filesToDir` onto a file-only accumulator is a file. -/
theorem filesToDir_go_allFiles :
    ∀ (files : List (String × List Nat)) (acc : List (String × FsNode)),
      (∀ p ∈ acc, ∃ c, p.2 = FsNode.file c) →
      ∀ p ∈ files.foldl (fun d p => dirInsert d p.1 (.file p.2)) acc, ∃ c, p.2 = FsNode.file c := by
  intro files
  induction files with
  | nil => intro acc hacc; exact hacc
  | cons q rest ih =>
    intro acc hacc
    refine ih _ ?_
    intro p hp
    rcases mem_dirInsert hp with h2 | h2
    · exact ⟨q.2, by rw [h2]⟩
    · exact hacc p h2

/-- Every node in a `filesToDir` listing is a file. -/
theorem filesToDir_allFiles (files : List (String × List Nat)) :
    ∀ p ∈ filesToDir files, ∃ c, p.2 = FsNode.file c :=
  filesToDir_go_allFiles files [] (by simp)

/-- Lookup in a `filesToDir` fold, given no duplicate file names. -/
theorem findKey_filesToDir_go :
    ∀ (files : List (String × List Nat)) (acc : List (String × FsNode)) (m : String),
      (files.map Prod.fst).Nodup →
      findKey (files.foldl (fun d p => dirInsert d p.1 (.file p.2)) acc) m =
        match findKey files m with
        | some c => some (FsNode.file c)
        | Option.none => findKey acc m := by
  intro files
  induction files with
  | nil => intro acc m _; rfl
  | cons q rest ih =>
    intro acc m hnd
    obtain ⟨n, c⟩ := q
    simp only [List.map_cons, List.nodup_cons] at hnd
    obtain ⟨hn, hr⟩ := hnd
    rw [List.foldl_cons, ih _ m hr]
    by_cases hm : n = m
    · subst hm
      rw [findKey_eq_none hn]
      simp [findKey, findKey_dirInsert]
    · rcases hfk : findKey rest m with _ | c'
      · simp [findKey, hfk, findKey_dirInsert, Ne.symm hm, hm]
      · simp [findKey, hfk, hm]

/-- Lookup in a `filesToDir` listing. -/
theorem findKey_filesToDir (files : List (String × List Nat)) (m : String)
    (h : (files.map Prod.fst).Nodup) :
    findKey (filesToDir files) m = (findKey files m).map FsNode.file := by
  rw [filesToDir, findKey_filesToDir_go files [] m h]
  rcases hfk : findKey files m with _ | c <;> simp [findKey]

/-- Lookup commutes with mapping the values of an association list. -/
theorem findKey_map {α β : Type} (g : α → β) (l : List (String × α)) (m : String) :
    findKey (l.map fun p => (p.1, g p.2)) m = (findKey l m).map g := by
  induction l with
  | nil => rfl
  | cons p rest ih =>
    obtain ⟨k, x⟩ := p
    by_cases h : k = m
    · simp [findKey, h]
    · simp [findKey, h, ih]

/-
Write/load lemmas for records whose fields are all byte strings.
-/

/-- Writing a record whose field values are all byte strings succeeds and
produces one file per field with exactly the field's bytes. -/
theorem write_entry_str {r : Record} (h : ∀ p ∈ r, ∃ s, p.2 = Value.str s) :
    write_entry r = .ok (r.map fun p => (p.1, pyStr p.2)) := by
  induction r with
  | nil => rfl
  | cons p rest ih =>
    obtain ⟨n, v⟩ := p
    obtain ⟨s, hs⟩ := h (n, v) (List.mem_cons_self _ _)
    dsimp only at hs
    subst hs
    simp [write_entry, fileData, ih fun p hp => h p (List.mem_cons_of_mem _ hp), pyStr]

/-- The loader's fold over a listing of files only: every step assigns the
file's bytes as a string field. -/
theorem loadFold_allFiles (fuel : Nat) :
    ∀ (es : List (String × FsNode)) (acc : Record),
      (∀ p ∈ es, ∃ c, p.2 = FsNode.file c) →
      (es.foldlM
        (fun (acc : Record) (p : String × FsNode) =>
          match p.2 with
          | .file c => pure (setField acc p.1 (.str c))
          | .dir sub =>
            if (sub.map Prod.fst).contains ".burp-list" then
              ((sub.filter fun q => q.1 != ".burp-list").mapM fun q => loadNode fuel q.2).map
                fun elems => setField acc p.1 (.list elems)
            else (loadNode fuel (.dir sub)).map fun r => setField acc p.1 (.sub r))
        acc : Except PyErr Record) =
        .ok (es.foldl (fun acc p => setField acc p.1 (.str p.2.contentD)) acc) := by
  intro es
  induction es with
  | nil => intro acc _; rfl
  | cons p rest ih =>
    intro acc h
    obtain ⟨n, node⟩ := p
    obtain ⟨c, hc⟩ := h (n, node) (List.mem_cons_self _ _)
    dsimp only at hc
    subst hc
    rw [List.foldlM_cons, List.foldl_cons]
    show (pure (setField acc n (.str c)) >>= fun s => _) = _
    rw [pure_bind]
    exact ih _ fun p hp => h p (List.mem_cons_of_mem _ hp)

/-- Loading a directory of files only succeeds, assigning each file's bytes
over the fresh `LogEntry()`. -/
theorem loadNode_allFiles (fuel : Nat) (es : List (String × FsNode))
    (h : ∀ p ∈ es, ∃ c, p.2 = FsNode.file c) :
    loadNode (fuel + 1) (.dir es) =
      .ok (es.foldl (fun acc p => setField acc p.1 (.str p.2.contentD)) initEntry) := by
  rw [loadNode]
  exact loadFold_allFiles fuel es initEntry h

/-- Lookup after folding field assignments over a listing without duplicate
names: the listing's own binding wins, else the start record's. -/
theorem findKey_foldl_setField :
    ∀ (ds : List (String × FsNode)) (acc : Record) (m : String),
      (ds.map Prod.fst).Nodup →
      findKey (ds.foldl (fun a p => setField a p.1 (.str p.2.contentD)) acc) m =
        match findKey ds m with
        | some node => some (Value.str node.contentD)
        | Option.none => findKey acc m := by
  intro ds
  induction ds with
  | nil => intro acc m _; rfl
  | cons q rest ih =>
    intro acc m hnd
    obtain ⟨n, node⟩ := q
    simp only [List.map_cons, List.nodup_cons] at hnd
    obtain ⟨hn, hr⟩ := hnd
    rw [List.foldl_cons, ih _ m hr]
    by_cases hm : n = m
    · subst hm
      rw [findKey_eq_none hn]
      simp [findKey, findKey_setField]
    · rcases hfk : findKey rest m with _ | c'
      · simp [findKey, hfk, findKey_setField, Ne.symm hm, hm]
      · simp [findKey, hfk, hm]

/-
Claim C3: round trip through the tree codec.
-/

/-- C3 counterexample: writing `c3entry` and reading it back does not
reproduce the nested-record field `finding`: `write_entry` string-coerces
the nested `LogEntry` into its repr, so the field comes back as that repr
string, not as a record — a non-derived field differs after the round
trip. -/
theorem C3_counterexample :
    (c3loaded.bind fun l => findField l "finding") =
      some (.str (bytes "<__main__.LogEntry object at 0x7f2a40000000>")) ∧
    findField c3entry "finding" = some (.sub c3sub) ∧
    Value.str (bytes "<__main__.LogEntry object at 0x7f2a40000000>") ≠ Value.sub c3sub :=
  ⟨rfl, rfl, fun h => Value.noConfusion h⟩

/-- C3 (corrected): the round trip reproduces exactly the fields holding
byte strings: for a record with pairwise distinct field names whose values
are all byte strings, writing and re-loading yields a record that agrees
with the original on every field other than the derived `md5`.  Fields of
other shapes are not reproduced: nested records come back as their repr
string (counterexample), non-empty lists make the write raise TypeError,
and non-string scalars come back string-coerced. -/
theorem C3_roundtrip_str_fields (r : Record) (fuel : Nat)
    (hnd : (r.map Prod.fst).Nodup)
    (hstr : ∀ p ∈ r, ∃ s, p.2 = Value.str s) :
    ∃ files, write_entry r = .ok files ∧
      ∃ loaded, loadNode (fuel + 1) (.dir (filesToDir files)) = .ok loaded ∧
        ∀ name, name ≠ "md5" → findField loaded name = findField r name := by
  refine ⟨_, write_entry_str hstr, ?_⟩
  have hfnames : ((r.map fun p => (p.1, pyStr p.2)).map Prod.fst) = r.map Prod.fst := by
    simp
  have hfnd : ((r.map fun p => (p.1, pyStr p.2)).map Prod.fst).Nodup := by
    rw [hfnames]; exact hnd
  refine ⟨_, loadNode_allFiles fuel _ (filesToDir_allFiles _), ?_⟩
  intro name hname
  rw [findField, findKey_foldl_setField _ _ _ (sorted_nodup (filesToDir_sorted _))]
  rw [findKey_filesToDir _ name hfnd, findKey_map]
  rcases hfk : findKey r name with _ | v
  · simp [findField, hfk, initEntry, findKey, Ne.symm hname]
  · obtain ⟨s, hs⟩ := hstr (name, v) (findKey_mem hfk)
    dsimp only at hs
    subst hs
    simp [findField, hfk, FsNode.contentD, pyStr]

/-- Witness for C3_roundtrip_str_fields at a concrete record. -/
theorem C3_roundtrip_str_fields_witness :
    ∃ files, write_entry c3w = .ok files ∧
      ∃ loaded, loadNode (0 + 1) (.dir (filesToDir files)) = .ok loaded ∧
        ∀ name, name ≠ "md5" → findField loaded name = findField c3w name := by
  refine C3_roundtrip_str_fields c3w 0 (by decide) ?_
  intro p hp
  rcases List.mem_cons.mp hp with h | h
  · exact ⟨_, by rw [h]⟩
  · rcases List.mem_cons.mp h with h2 | h2
    · exact ⟨_, by rw [h2]⟩
    · simp at h2

/-
Claim C4: ordering of list elements through the codec.
-/

/-- C4: for every scanner entry whose messages list holds elements A, B, C
in that order, writing it with `add_scanner_entry` (numbered element
directories 0, 1, 2 plus the sentinel) and loading the directory back
yields the `messages` field with the same elements in the same order. -/
theorem C4_list_order_preserved (h1 r1 h2 r2 h3 r3 : List Nat) :
    ((add_scanner_entry (c4entry h1 r1 h2 r2 h3 r3)).bind fun p =>
        loadNode pyRecursionLimit (.dir p.2)).map (fun l => findField l "messages") =
      .ok (some (.list [c4msg h1 r1, c4msg h2 r2, c4msg h3 r3])) := rfl

/-
Claim C5: behaviour of the commit step when nothing is staged.
-/

/-- C5 counterexample: adding a repeater entry whose files are already in
the index makes the `git commit` subprocess exit non-zero ("nothing to
commit"), and `_run_subprocess_command` raises instead of treating it as
success — the commit step is not no-op-safe. -/
theorem C5_counterexample :
    add_repeater_entry c5entry commit_nothing_staged = .error (.exn repeater_commit_cmd) := rfl

/-- C5 (corrected): whenever the commit subprocess exits non-zero — which
is what git does on a clean index — `add_repeater_entry` raises the
wrapper's exception rather than succeeding with an empty diff. -/
theorem C5_commit_not_noop_safe (entry : Record) (res : ProcResult)
    (hw : ∃ files, write_entry entry = .ok files) (hrc : res.returncode ≠ 0) :
    add_repeater_entry entry res = .error (.exn res.cmd) := by
  obtain ⟨files, hf⟩ := hw
  simp [add_repeater_entry, hf, run_subprocess_command, hrc]

/-- Witness for C5_commit_not_noop_safe at a concrete entry and result. -/
theorem C5_commit_not_noop_safe_witness :
    add_repeater_entry c5entry commit_nothing_staged = .error (.exn commit_nothing_staged.cmd) :=
  C5_commit_not_noop_safe c5entry commit_nothing_staged ⟨_, rfl⟩ (by decide)

/-
Claim C6: what the loader does with malformed record directories.
-/

/-- C6 counterexample: with one malformed record directory (missing list
sentinel) between two well-formed ones, the walk yields three records, not
the claimed two: the malformed directory is not skipped — it is loaded
with its `messages` field as a nested record instead of a list. -/
theorem C6_counterexample :
    (gitlog_entries c6repo).map List.length = .ok 3 ∧
    (((loadNode pyRecursionLimit (.dir c6bad)).toOption.bind fun r =>
        findField r "messages").map Value.isList) = some false :=
  ⟨rfl, rfl⟩

/-- Unfolding of the walk on a non-empty listing. -/
theorem gitlog_entries_cons (name : String) (node : FsNode) (rest : List (String × FsNode)) :
    gitlog_entries ((name, node) :: rest) =
      if name = ".git" then gitlog_entries rest
      else
        match node with
        | .file _ => gitlog_entries rest
        | .dir es =>
          match loadNode pyRecursionLimit (.dir es) with
          | .error e => .error e
          | .ok r =>
            match gitlog_entries rest with
            | .error e => .error e
            | .ok rs => .ok (r :: rs) := rfl

/-- C6 (corrected): the walk has no per-entry error handling and skips
nothing except `.git` and non-directories: whenever it returns at all, it
returns one record for every other directory, malformed or not (and an
actual read error would propagate, aborting the whole walk). -/
theorem C6_no_entry_skipped (repo : List (String × FsNode)) (l : List Record)
    (h : gitlog_entries repo = .ok l) :
    l.length = (repo.filter fun p => p.1 != ".git" && p.2.isDir).length := by
  induction repo generalizing l with
  | nil =>
    simp only [gitlog_entries, Except.ok.injEq] at h
    subst h
    rfl
  | cons p rest ih =>
    obtain ⟨name, node⟩ := p
    rw [gitlog_entries_cons] at h
    by_cases hg : name = ".git"
    · rw [if_pos hg] at h
      subst hg
      rw [List.filter_cons]
      simp only [bne_self_eq_false, Bool.false_and, if_neg Bool.false_ne_true]
      exact ih _ h
    · rw [if_neg hg] at h
      cases node with
      | file c =>
        rw [List.filter_cons]
        simp only [FsNode.isDir, Bool.and_false, if_neg Bool.false_ne_true]
        exact ih _ h
      | dir es =>
        dsimp only at h
        rcases hload : loadNode pyRecursionLimit (.dir es) with e | r <;> rw [hload] at h <;>
          dsimp only at h
        · exact absurd h (by simp)
        · rcases hrest : gitlog_entries rest with e | rs <;> rw [hrest] at h <;>
            dsimp only at h
          · exact absurd h (by simp)
          · simp only [Except.ok.injEq] at h
            subst h
            rw [List.filter_cons]
            have hcond : (name != ".git" && FsNode.isDir (.dir es)) = true := by
              simp [FsNode.isDir, bne_iff_ne, hg]
            rw [if_pos hcond]
            simp [List.length_cons, ih _ hrest]

/-- Witness for C6_no_entry_skipped at a concrete repository. -/
theorem C6_no_entry_skipped_witness :
    ∃ l, gitlog_entries c6wrepo = .ok l ∧
      l.length = (c6wrepo.filter fun p => p.1 != ".git" && p.2.isDir).length :=
  ⟨_, rfl, C6_no_entry_skipped c6wrepo _ rfl⟩

/-
Claim C7: where the loaded fingerprint field comes from.
-/

/-- C7 counterexample: a record directory named `deadbeef` whose `md5` file
holds `cafebabe` loads with fingerprint `cafebabe`: the field is re-read
from the file content, not taken from the directory name. -/
theorem C7_counterexample :
    ((gitlog_entries c7repo).toOption.bind fun l => l.head?.bind fun r => findField r "md5") =
      some (.str (bytes "cafebabe")) ∧
    bytes "cafebabe" ≠ bytes "deadbeef" :=
  ⟨rfl, by decide⟩

/-- C7 (corrected): for a flat record directory, the loaded record's `md5`
field is the content of the `md5` file when one exists and otherwise the
digest the fresh `LogEntry()` computed over no fields; the directory's own
name is never consulted (the loader does not receive it). -/
theorem C7_md5_from_file (fuel : Nat) (es : List (String × FsNode))
    (hnd : (es.map Prod.fst).Nodup) (hAF : ∀ p ∈ es, ∃ c, p.2 = FsNode.file c) :
    ∃ loaded, loadNode (fuel + 1) (.dir es) = .ok loaded ∧
      findField loaded "md5" =
        (match findKey es "md5" with
         | some node => some (Value.str node.contentD)
         | Option.none => some (.str (md5Hex []))) := by
  refine ⟨_, loadNode_allFiles fuel es hAF, ?_⟩
  rw [findField, findKey_foldl_setField es initEntry _ hnd]
  rcases hfk : findKey es "md5" with _ | node
  · simp [initEntry, findKey]
  · rfl

/-- Witness for C7_md5_from_file at a concrete listing. -/
theorem C7_md5_from_file_witness :
    ∃ loaded, loadNode (0 + 1) (.dir [("md5", FsNode.file (bytes "cafebabe"))]) = .ok loaded ∧
      findField loaded "md5" =
        (match findKey [("md5", FsNode.file (bytes "cafebabe"))] "md5" with
         | some node => some (Value.str node.contentD)
         | Option.none => some (.str (md5Hex []))) := by
  refine C7_md5_from_file 0 _ (by decide) ?_
  intro p hp
  rcases List.mem_cons.mp hp with h | h
  · exact ⟨_, by rw [h]⟩
  · simp at h

/-
Claim C8: contract of the subprocess wrapper.
-/

/-- C8 counterexample: two failing invocations of the same command with
different captured stdout and stderr raise the same exception — the raised
error is built from the command alone and cannot carry the captured stdout
or stderr to the caller (they are only printed). -/
theorem C8_counterexample :
    run_subprocess_command c8a = run_subprocess_command c8b ∧
    c8a.err ≠ c8b.err ∧ c8a.out ≠ c8b.out :=
  ⟨rfl, by decide, by decide⟩

/-- C8 (corrected): the wrapper returns the captured stdout exactly when the
subprocess exits zero, and on non-zero exit raises an exception carrying
the command only — not the captured stdout or stderr. -/
theorem C8_subprocess_contract (p : ProcResult) :
    (p.returncode = 0 → run_subprocess_command p = .ok p.out) ∧
    (p.returncode ≠ 0 → run_subprocess_command p = .error (.exn p.cmd)) := by
  constructor
  · intro h; simp [run_subprocess_command, h]
  · intro h; simp [run_subprocess_command, h]

/-- Witness for C8_subprocess_contract at concrete process results. -/
theorem C8_subprocess_contract_witness :
    run_subprocess_command c8ok = .ok c8ok.out ∧
    run_subprocess_command c8a = .error (.exn c8a.cmd) :=
  ⟨(C8_subprocess_contract c8ok).1 rfl, (C8_subprocess_contract c8a).2 (by decide)⟩

/-
Claim C9: the edit-description authorization check.
-/

/-- C9: for every stored record whose `who` file differs from the current
identity, `set_description` performs no mutation of the working tree and
returns the falsy `False` instead of raising. -/
theorem C9_edit_denied_soft (repo : List (String × FsNode)) (user : List Nat)
    (hash : String) (desc : List Nat) (es : List (String × FsNode)) (who : List Nat)
    (hdir : findKey repo hash = some (.dir es))
    (hwho : findKey es "who" = some (.file who))
    (hne : who ≠ user) :
    set_description repo user hash desc = .ok (repo, some false) := by
  simp [set_description, hdir, hwho, hne]

/-- Witness for C9_edit_denied_soft at a concrete repository and user. -/
theorem C9_edit_denied_soft_witness :
    set_description c9repo (bytes "bob\n") "e1" (bytes "note") = .ok (c9repo, some false) :=
  C9_edit_denied_soft c9repo (bytes "bob\n") "e1" (bytes "note")
    [("who", .file (bytes "alice\n")), ("description", .file (bytes "old"))]
    (bytes "alice\n") rfl rfl (by decide)

/-
Claim C10: the unguarded GuiLog.remove_entry.
-/

/-- No index matches when no entry's md5 equals the target. -/
theorem firstMatchFrom_none {l : List (List Nat)} {t : List Nat}
    (h : ∀ x ∈ l, x ≠ t) : ∀ i, firstMatchFrom i l t = Option.none := by
  induction l with
  | nil => intro i; rfl
  | cons m rest ih =>
    intro i
    simp [firstMatchFrom, h m (List.mem_cons_self _ _),
      ih fun x hx => h x (List.mem_cons_of_mem _ hx)]

/-- C10: removing an entry whose md5 matches nothing still completes on a
non-empty log and fires the row-deleted notification for the last scanned
index, leaving the log unchanged; on an empty log the loop variable is
never bound and the call raises NameError — the no-match and empty cases
are not guarded. -/
theorem C10_remove_entry_unguarded :
    (∀ (log : List (List Nat)) (target : List Nat), log ≠ [] →
        (∀ m ∈ log, m ≠ target) → remove_entry log target = .ok (log, log.length - 1)) ∧
    ∀ target : List Nat, remove_entry [] target = .error .nameError := by
  constructor
  · intro log target hne hnm
    cases log with
    | nil => exact absurd rfl hne
    | cons m rest =>
      simp [remove_entry, firstMatchFrom_none hnm 0]
  · intro t; rfl

/-- Witness for C10_remove_entry_unguarded at a concrete log and target. -/
theorem C10_remove_entry_unguarded_witness :
    remove_entry [bytes "aa"] (bytes "bb") = .ok ([bytes "aa"], 0) ∧
    remove_entry [] (bytes "bb") = .error .nameError :=
  ⟨C10_remove_entry_unguarded.1 [bytes "aa"] (bytes "bb") (by simp) (by decide),
   C10_remove_entry_unguarded.2 (bytes "bb")⟩
